import Mathlib

/-!
Shallow embedding of the GraphRAG instrumentation layer
(`src/text2cypher_cache.py`, `src/cypher_validator.py`,
`src/performance_benchmark.py`) in Lean 4, together with proofs and
refutations of the specification's claims about it.

Conventions of the embedding:
* Python strings are `String` / `List Char`; all text functions are
  executable and (where recursion is needed) structurally or fuel
  recursive, so concrete runs evaluate by `decide` / `rfl`.
* Python exceptions are `Except String`; a raised exception is `.error`.
* The external database backend (`self.conn.execute`) is a parameter
  `execQ : String → σ → Except String Unit × σ`: a state-threaded oracle
  that either succeeds or raises an error message.
* The SHA-256 hexdigest prefix used by the cache key derivation is
  abstracted as an arbitrary function `digest16 : String → String`; the
  order-independence claim holds for every such function.
* Python floats are modelled as `ℚ`.
-/

/-! ## Character and string utilities (Python semantics, ASCII fragment) -/

/-- Decidable equality for `Except`, so that concrete runs of the
embedded fallible functions can be checked by `decide`. -/
instance {ε α : Type} [DecidableEq ε] [DecidableEq α] : DecidableEq (Except ε α) :=
  fun x y =>
    match x, y with
    | .ok a, .ok b =>
      if h : a = b then isTrue (by rw [h])
      else isFalse (by intro hc; cases hc; exact h rfl)
    | .ok _, .error _ => isFalse (by intro hc; cases hc)
    | .error _, .ok _ => isFalse (by intro hc; cases hc)
    | .error e, .error f =>
      if h : e = f then isTrue (by rw [h])
      else isFalse (by intro hc; cases hc; exact h rfl)

/-- Python `\s` / `str.strip` whitespace, ASCII fragment. -/
def pyIsSpaceChar (c : Char) : Bool :=
  c = ' ' || c = '\t' || c = '\n' || c = '\r' || c = '\x0b' || c = '\x0c'

/-- Python `\w`, ASCII fragment: `[A-Za-z0-9_]`. -/
def pyIsWordChar (c : Char) : Bool :=
  c.isAlphanum || c = '_'

/-- The single-quote character. -/
def squo : Char := '\''

/-- `isPrefixL p l` : `p` is a prefix of `l` (by character equality). -/
def isPrefixL : List Char → List Char → Bool
  | [], _ => true
  | _ :: _, [] => false
  | a :: p, b :: l => a = b && isPrefixL p l

/-- Python `sub in s` (substring containment). -/
def subIn : List Char → List Char → Bool
  | p, [] => isPrefixL p []
  | p, l@(_ :: t) => isPrefixL p l || subIn p t

/-- Case-insensitive `startsWith`: `pat` is given in lowercase. -/
def startsWithCI : List Char → List Char → Bool
  | [], _ => true
  | _ :: _, [] => false
  | a :: p, b :: l => b.toLower = a && startsWithCI p l

/-- Python `str.strip()` on a character list. -/
def pyStripL (l : List Char) : List Char :=
  ((l.dropWhile pyIsSpaceChar).reverse.dropWhile pyIsSpaceChar).reverse

/-- Python `str.strip()`. -/
def pyStripS (s : String) : String :=
  String.mk (pyStripL s.toList)

/-- Python slice `l[a:b]` for `a ≤ b` (both clamped to the length). -/
def sliceClamp (l : List Char) (a b : Nat) : List Char :=
  (l.take b).drop a

/-- Fuel-recursive core of `re.sub r'\s+' ' '`: every maximal whitespace
run becomes a single space. The fuel is only a structural-recursion
device; `collapseWS` supplies enough for the scan to finish. -/
def collapseWSAux : Nat → List Char → List Char
  | 0, l => l
  | _ + 1, [] => []
  | fuel + 1, c :: t =>
    if pyIsSpaceChar c then ' ' :: collapseWSAux fuel (t.dropWhile pyIsSpaceChar)
    else c :: collapseWSAux fuel t

/-- `re.sub(r'\s+', ' ', l)`. -/
def collapseWS (l : List Char) : List Char :=
  collapseWSAux (l.length + 1) l

/-- Python `s.replace(sub, repl, 1)`: replace the first occurrence. -/
def replaceFirstL (sub repl : List Char) : List Char → List Char
  | [] => if isPrefixL sub [] then repl else []
  | l@(c :: t) =>
    if isPrefixL sub l then repl ++ l.drop sub.length
    else c :: replaceFirstL sub repl t

/-- Fuel-recursive core of Python `s.replace(sub, repl)` (all, left to
right, non-overlapping); only used with non-empty `sub`. -/
def replaceAllAux (sub repl : List Char) : Nat → List Char → List Char
  | 0, l => l
  | _ + 1, [] => []
  | fuel + 1, l@(c :: t) =>
    if !sub.isEmpty && isPrefixL sub l then
      repl ++ replaceAllAux sub repl fuel (l.drop sub.length)
    else c :: replaceAllAux sub repl fuel t

/-- Python `s.replace(sub, repl)` for non-empty `sub`. -/
def replaceAllL (sub repl l : List Char) : List Char :=
  replaceAllAux sub repl (l.length + 1) l

/-! ## `CypherQueryValidator._enforce_lowercase_comparisons`
(src/cypher_validator.py lines 70-105)

The two regular expressions are compiled into direct deterministic
matchers (their quantified classes are disjoint from what follows them,
so the regex engine's backtracking never changes the outcome):

pattern 1 : `(\w+\.\w+)\s*=\s*'([^']+)'` (IGNORECASE)
pattern 2 : `(?<!lower\()(\w+\.\w+)\s+CONTAINS\s+'([^']+)'` (IGNORECASE) -/

/-- Try pattern 1 anchored at the head of `l`. On success, return
(match length, group 1, group 2). -/
def matchEq (l : List Char) : Option (Nat × List Char × List Char) :=
  let w1 := l.takeWhile pyIsWordChar
  if w1.isEmpty then none else
  match l.drop w1.length with
  | '.' :: r2 =>
    let w2 := r2.takeWhile pyIsWordChar
    if w2.isEmpty then none else
    let r3 := r2.drop w2.length
    let sp1 := r3.takeWhile pyIsSpaceChar
    match r3.drop sp1.length with
    | '=' :: r5 =>
      let sp2 := r5.takeWhile pyIsSpaceChar
      match r5.drop sp2.length with
      | q1 :: r7 =>
        if q1 = squo then
          let lit := r7.takeWhile (fun c => !(c = squo))
          if lit.isEmpty then none else
          match r7.drop lit.length with
          | q2 :: _ =>
            if q2 = squo then
              some (w1.length + 1 + w2.length + sp1.length + 1 + sp2.length
                      + 1 + lit.length + 1,
                    w1 ++ '.' :: w2, lit)
            else none
          | [] => none
        else none
      | [] => none
    | _ => none
  | _ => none

/-- Try pattern 2 anchored at the head of `l`; `prev6` is the text
immediately before the match position (for the `(?<!lower\()`
lookbehind, which is case-insensitive). -/
def matchCt (prev6 : List Char) (l : List Char) : Option (Nat × List Char × List Char) :=
  if prev6.map Char.toLower = "lower(".toList then none else
  let w1 := l.takeWhile pyIsWordChar
  if w1.isEmpty then none else
  match l.drop w1.length with
  | '.' :: r2 =>
    let w2 := r2.takeWhile pyIsWordChar
    if w2.isEmpty then none else
    let r3 := r2.drop w2.length
    let sp1 := r3.takeWhile pyIsSpaceChar
    if sp1.isEmpty then none else
    let r4 := r3.drop sp1.length
    if startsWithCI "contains".toList r4 then
      let r5 := r4.drop 8
      let sp2 := r5.takeWhile pyIsSpaceChar
      if sp2.isEmpty then none else
      match r5.drop sp2.length with
      | q1 :: r7 =>
        if q1 = squo then
          let lit := r7.takeWhile (fun c => !(c = squo))
          if lit.isEmpty then none else
          match r7.drop lit.length with
          | q2 :: _ =>
            if q2 = squo then
              some (w1.length + 1 + w2.length + sp1.length + 8 + sp2.length
                      + 1 + lit.length + 1,
                    w1 ++ '.' :: w2, lit)
            else none
          | [] => none
        else none
      | [] => none
    else none
  | _ => none

/-- A regex match: (start position, matched text, group 1, group 2). -/
def RegexMatch : Type := Nat × List Char × List Char × List Char

/-- `re.finditer` for pattern 1: leftmost, non-overlapping matches over a
snapshot of the string. Fuel-recursive; the scan consumes at least one
character per step, so `l.length + 1` fuel always completes it. -/
def findIterEqAux : Nat → List Char → Nat → List RegexMatch
  | 0, _, _ => []
  | _ + 1, [], _ => []
  | fuel + 1, l@(_ :: t), pos =>
    match matchEq l with
    | some (len, g1, g2) =>
      (pos, l.take len, g1, g2) :: findIterEqAux fuel (l.drop len) (pos + len)
    | none => findIterEqAux fuel t (pos + 1)

/-- `re.finditer` for pattern 1. -/
def findIterEq (l : List Char) : List RegexMatch :=
  findIterEqAux (l.length + 1) l 0

/-- `re.finditer` for pattern 2 over `orig` (the lookbehind needs the six
characters before each position of the same snapshot). -/
def findIterCtAux (orig : List Char) : Nat → List Char → Nat → List RegexMatch
  | 0, _, _ => []
  | _ + 1, [], _ => []
  | fuel + 1, l@(_ :: t), pos =>
    match matchCt (sliceClamp orig (pos - 6) pos) l with
    | some (len, g1, g2) =>
      (pos, l.take len, g1, g2) :: findIterCtAux orig fuel (l.drop len) (pos + len)
    | none => findIterCtAux orig fuel t (pos + 1)

/-- `re.finditer` for pattern 2. -/
def findIterCt (l : List Char) : List RegexMatch :=
  findIterCtAux l (l.length + 1) l 0

/-- The loop body of `_enforce_lowercase_comparisons`: the guard window
`result[max(0, match.start()-20):match.start()]` is sliced from the
CURRENT (already mutated) `result` at the match's position in the old
snapshot, and the replacement text replaces the first occurrence of the
matched text in the current `result` (`result.replace(original, new, 1)`).
For both patterns `re.sub` on the matched snippet yields
`lower(<g1>) CONTAINS '<g2>'`. -/
def applyOneMatch (result : List Char) (m : RegexMatch) : List Char :=
  let start := m.1
  let original := m.2.1
  let g1 := m.2.2.1
  let g2 := m.2.2.2
  let window := sliceClamp result (start - 20) start
  if subIn "lower".toList (window.map Char.toLower) then result
  else
    replaceFirstL original
      ("lower(".toList ++ g1 ++ ") CONTAINS ".toList ++ squo :: g2 ++ [squo]) result

/-- `_enforce_lowercase_comparisons` (lines 70-105): for each of the two
patterns, the matches are computed once over the string as it stands
when the pattern's loop starts, then applied one by one to the mutating
`result`. -/
def enforce_lowercase_comparisons (query : String) : String :=
  let l0 := query.toList
  let l1 := (findIterEq l0).foldl applyOneMatch l0
  let l2 := (findIterCt l1).foldl applyOneMatch l1
  String.mk l2

/-! ## `CypherQueryValidator._fix_return_projection`
(src/cypher_validator.py lines 107-141)

`re.search(r'\bRETURN\b(.+?)(?:ORDER BY|LIMIT|$)', query, IGNORECASE)`:
leftmost word-bounded `RETURN`, then a lazy non-newline group of at
least one character, ended by `ORDER BY`, `LIMIT` (case-insensitive) or
`$` (end of string, or just before a final newline). The function
always returns the query unchanged, but `item.split()[0]` raises
`IndexError` on an empty comma-separated item. -/

/-- Terminator of the lazy group: `ORDER BY` / `LIMIT` / `$`. -/
def returnTermAt (rest : List Char) : Bool :=
  startsWithCI "order by".toList rest || startsWithCI "limit".toList rest
    || rest.isEmpty || rest = ['\n']

/-- Extend the lazy group one character at a time until a terminator. -/
def groupScanGo : List Char → List Char → Option (List Char)
  | acc, [] => if returnTermAt [] then some acc else none
  | acc, r@(c :: t) =>
    if returnTermAt r then some acc
    else if c = '\n' then none
    else groupScanGo (acc ++ [c]) t

/-- The lazy group `(.+?)` (at least one non-newline character). -/
def groupScan : List Char → Option (List Char)
  | [] => none
  | c :: t => if c = '\n' then none else groupScanGo [c] t

/-- Word boundary before a word character. -/
def wordBoundaryBefore : Option Char → Bool
  | none => true
  | some c => !pyIsWordChar c

/-- Word boundary after `RETURN`. -/
def boundaryAfter : List Char → Bool
  | [] => true
  | c :: _ => !pyIsWordChar c

/-- `re.search` scan: try every position left to right. -/
def findReturnClauseAux : Option Char → List Char → Option (List Char)
  | _, [] => none
  | prev, l@(c :: t) =>
    if wordBoundaryBefore prev && startsWithCI "return".toList l
        && boundaryAfter (l.drop 6) then
      match groupScan (l.drop 6) with
      | some g => some g
      | none => findReturnClauseAux (some c) t
    else findReturnClauseAux (some c) t

/-- `group(1)` of the `RETURN` search, if the search matches. -/
def findReturnClause (l : List Char) : Option (List Char) :=
  findReturnClauseAux none l

/-- Python `s.split(',')` (keeps empty pieces). -/
def splitComma : List Char → List (List Char)
  | [] => [[]]
  | c :: t =>
    if c = ',' then [] :: splitComma t
    else
      match splitComma t with
      | h :: r => (c :: h) :: r
      | [] => [[c]]

/-- `item.split()[0]`: the first whitespace-delimited token, if any. -/
def firstTok (item : List Char) : Option (List Char) :=
  let d := item.dropWhile pyIsSpaceChar
  if d.isEmpty then none
  else some (d.takeWhile (fun c => !pyIsSpaceChar c))

/-- `re.match(r'^[a-zA-Z_][a-zA-Z0-9_]*$', tok)`. -/
def isSimpleVarTok : List Char → Bool
  | [] => false
  | c :: t => (c.isAlpha || c = '_') && t.all (fun d => d.isAlphanum || d = '_')

/-- The `for item in items` loop of `_fix_return_projection`: an empty
item raises `IndexError`; a bare identifier breaks the loop; in every
non-raising case the query is returned unchanged. -/
def fixLoop (query : String) : List (List Char) → Except String String
  | [] => .ok query
  | item :: rest =>
    match firstTok item with
    | none => .error "IndexError: list index out of range"
    | some tok => if isSimpleVarTok tok then .ok query else fixLoop query rest

/-- `_fix_return_projection` (lines 107-141). -/
def fix_return_projection (query : String) : Except String String :=
  match findReturnClause query.toList with
  | none => .ok query
  | some g =>
    let rc := pyStripL g
    let items := (splitComma rc).map pyStripL
    fixLoop query items

/-- `CypherQueryValidator.post_process` (lines 39-68): strip, enforce
lowercase comparisons, the (possibly raising) return-projection check,
collapse whitespace, then `replace('to_lower(', 'lower(')`. -/
def post_process (query : String) : Except String String :=
  let p1 := pyStripS query
  let p2 := enforce_lowercase_comparisons p1
  match fix_return_projection p2 with
  | .error e => .error e
  | .ok p3 =>
    let p4 := String.mk (collapseWS p3.toList)
    let p5 := String.mk (replaceAllL "to_lower(".toList "lower(".toList p4.toList)
    .ok p5

/-! ## `CypherQueryValidator.validate_syntax`
(src/cypher_validator.py lines 22-37)

The backend connection is a state-threaded oracle
`execQ : String → σ → Except String Unit × σ`; `validate_syntax`
submits `EXPLAIN {query}` once and converts an exception to
`(False, str(e))`, success to `(True, None)`. -/

/-- `validate_syntax` (lines 22-37). -/
def validate_syntax {σ : Type} (execQ : String → σ → Except String Unit × σ)
    (query : String) (s : σ) : (Bool × Option String) × σ :=
  match execQ ("EXPLAIN " ++ query) s with
  | (.ok _, s2) => ((true, none), s2)
  | (.error e, s2) => ((false, some e), s2)

/-- A backend oracle wrapped so that its state records the log of the
queries submitted to `conn.execute`. -/
def withCallLog (f : String → Except String Unit) :
    String → List String → Except String Unit × List String :=
  fun q log => (f q, log ++ [q])

/-! ## `CypherSelfRefinement._apply_heuristic_repairs`
(src/cypher_validator.py lines 193-215) -/

/-- Python `s.rstrip(';')`. -/
def rstripSemi (l : List Char) : List Char :=
  (l.reverse.dropWhile (fun c => c = ';')).reverse

/-- Fuel-recursive core of `re.sub(r'CALL apoc\.[^\s]+', '', repaired,
flags=re.IGNORECASE)`. -/
def removeApocAux : Nat → List Char → List Char
  | 0, l => l
  | _ + 1, [] => []
  | fuel + 1, l@(c :: t) =>
    if startsWithCI "call apoc.".toList l then
      let rest0 := l.drop 10
      let run := rest0.takeWhile (fun d => !pyIsSpaceChar d)
      if run.isEmpty then c :: removeApocAux fuel t
      else removeApocAux fuel (rest0.drop run.length)
    else c :: removeApocAux fuel t

/-- `re.sub(r'CALL apoc\.[^\s]+', '', l, flags=re.IGNORECASE)`. -/
def removeApoc (l : List Char) : List Char :=
  removeApocAux (l.length + 1) l

/-- `_apply_heuristic_repairs` (lines 193-215). -/
def apply_heuristic_repairs (query : String) (error_msg : String) : String :=
  let repaired := query
  let repaired :=
    if subIn "semicolon".toList (error_msg.toList.map Char.toLower) then
      String.mk (rstripSemi repaired.toList ++ [';'])
    else repaired
  let repaired :=
    if subIn "apoc".toList (repaired.toList.map Char.toLower) then
      String.mk (removeApoc repaired.toList)
    else repaired
  repaired

/-! ## `CypherSelfRefinement.refine`
(src/cypher_validator.py lines 157-191)

The loop `for attempt in range(self.max_attempts)` is fuel recursion on
the remaining attempts; `processed_query` is a Python local that is
unbound before the first iteration (`Option String`, `none` initially),
so `refine` with `max_attempts = 0` raises `NameError` at the final
`return processed_query`. A raising `post_process` propagates. When no
repair function is supplied, `_apply_heuristic_repairs` is called with
the error message (always a `str` when validation failed; calling it
with `None` would raise `AttributeError`, modelled faithfully in the
unreachable branch). -/

/-- Python `f"{opt}"` of an `Optional[str]`. -/
def pyStrOfOpt : Option String → String
  | some s => s
  | none => "None"

/-- The loop of `refine`, one constructor case per remaining attempt. -/
def refineLoop {σ : Type} (execQ : String → σ → Except String Unit × σ)
    (repair_fn : Option (String → Option String → String)) :
    Nat → Nat → String → Option String → List String → σ →
    Except String ((String × Bool × List String) × σ)
  | 0, _, _, processedOpt, history, s =>
    match processedOpt with
    | some p => .ok ((p, false, history), s)
    | none => .error "NameError: name 'processed_query' is not defined"
  | fuel + 1, attempt, current, _, history, s =>
    match post_process current with
    | .error e => .error e
    | .ok processed =>
      let vres := validate_syntax execQ processed s
      if vres.1.1 then .ok ((processed, true, history), vres.2)
      else
        let history2 :=
          history ++ ["Attempt " ++ toString (attempt + 1) ++ ": "
                        ++ pyStrOfOpt vres.1.2]
        match repair_fn with
        | some f =>
          refineLoop execQ repair_fn fuel (attempt + 1) (f current vres.1.2)
            (some processed) history2 vres.2
        | none =>
          match vres.1.2 with
          | some e =>
            refineLoop execQ repair_fn fuel (attempt + 1)
              (apply_heuristic_repairs current e) (some processed) history2 vres.2
          | none => .error "AttributeError: 'NoneType' object has no attribute 'lower'"

/-- `refine` (lines 157-191). -/
def refine {σ : Type} (execQ : String → σ → Except String Unit × σ)
    (repair_fn : Option (String → Option String → String))
    (max_attempts : Nat) (query : String) (s : σ) :
    Except String ((String × Bool × List String) × σ) :=
  refineLoop execQ repair_fn max_attempts 0 query none [] s

/-! ## Specification helpers for `refine`: the candidate trace

With a caller-supplied repair function, iteration `i` of the loop
post-processes candidate `i`, validates it, and derives candidate
`i + 1` by repairing candidate `i` with the validation error. The
following executable definitions compute that trace. -/

/-- The `.ok` payload of a non-raising `post_process` run. -/
def okValue : Except String String → String
  | .ok p => p
  | .error _ => ""

/-- One loop iteration's effect on (current candidate, backend state),
in the all-invalid regime (if `post_process` raises or validation
succeeds, the loop would stop instead; the value here is immaterial). -/
def stepRefine {σ : Type} (execQ : String → σ → Except String Unit × σ)
    (repair : String → Option String → String) (cs : String × σ) : String × σ :=
  match post_process cs.1 with
  | .error _ => cs
  | .ok p =>
    let vres := validate_syntax execQ p cs.2
    (repair cs.1 vres.1.2, vres.2)

/-- The candidate/state trace: `iterRefine execQ repair cs i` is the pair
(candidate of iteration `i`, backend state when iteration `i` starts). -/
def iterRefine {σ : Type} (execQ : String → σ → Except String Unit × σ)
    (repair : String → Option String → String) (cs : String × σ) : Nat → String × σ
  | 0 => cs
  | n + 1 => iterRefine execQ repair (stepRefine execQ repair cs) n

/-- The post-processed (normalized) candidate of iteration `i`. -/
def procAt {σ : Type} (execQ : String → σ → Except String Unit × σ)
    (repair : String → Option String → String) (cs : String × σ) (i : Nat) : String :=
  okValue (post_process (iterRefine execQ repair cs i).1)

/-- The validation error message of iteration `i`. -/
def errAt {σ : Type} (execQ : String → σ → Except String Unit × σ)
    (repair : String → Option String → String) (cs : String × σ) (i : Nat) :
    Option String :=
  ( validate_syntax execQ (procAt execQ repair cs i) (iterRefine execQ repair cs i).2).1.2

/-- The error history accumulated by `n` failing iterations, the first
labelled `attempt + 1`. -/
def refineHistory {σ : Type} (execQ : String → σ → Except String Unit × σ)
    (repair : String → Option String → String) (cs : String × σ)
    (attempt : Nat) (n : Nat) : List String :=
  (List.range n).map
    (fun i => "Attempt " ++ toString (attempt + i + 1) ++ ": "
                ++ pyStrOfOpt (errAt execQ repair cs i))

/-! ## `Text2CypherCache` (src/text2cypher_cache.py)

`collections.OrderedDict` is modelled as an association list in recency
order: the head is the least-recently-used entry, the last element the
most-recently-used. Both `get` and `set` first derive the key with
`_generate_key` and then act on the key alone, so the store is modelled
generically over the key type. -/

/-- The cache state (`__init__`, lines 16-25). -/
structure Text2CypherCache (K V : Type) where
  max_size : Nat
  cache : List (K × V)
  hits : Nat
  misses : Nat

namespace Text2CypherCache

variable {K V : Type} [DecidableEq K]

/-- A fresh cache of capacity `max_size`. -/
def init (K V : Type) (max_size : Nat) : Text2CypherCache K V :=
  { max_size := max_size, cache := [], hits := 0, misses := 0 }

/-- Dictionary lookup `self.cache[key]` / `key in self.cache`. -/
def findVal (l : List (K × V)) (k : K) : Option V :=
  (l.find? (fun p => decide (p.1 = k))).map Prod.snd

/-- Removing a key from the association list (part of `move_to_end`). -/
def removeKey (l : List (K × V)) (k : K) : List (K × V) :=
  l.filter (fun p => decide (¬p.1 = k))

/-- `get` (lines 42-59): a hit bumps `hits` and moves the entry to the
most-recently-used end; a miss bumps `misses`. -/
def get (c : Text2CypherCache K V) (k : K) : Option V × Text2CypherCache K V :=
  match findVal c.cache k with
  | some v =>
    (some v, { c with hits := c.hits + 1, cache := removeKey c.cache k ++ [(k, v)] })
  | none => (none, { c with misses := c.misses + 1 })

/-- `set` (lines 61-80): `move_to_end` (when present) plus assignment
appends `(k, v)` at the most-recently-used end; then, if the size
exceeds capacity, `popitem(last=False)` drops the head (the
least-recently-used entry). -/
def set (c : Text2CypherCache K V) (k : K) (v : V) : Text2CypherCache K V :=
  let base := removeKey c.cache k ++ [(k, v)]
  let pruned := if c.max_size < base.length then base.drop 1 else base
  { c with cache := pruned }

/-- The dictionary returned by `get_stats` (lines 88-102); `hit_rate` is
`hits / total if total > 0 else 0`, with floats modelled as `ℚ`. -/
structure CacheStats where
  size : Nat
  max_size : Nat
  hits : Nat
  misses : Nat
  hit_rate : ℚ
  deriving DecidableEq

/-- `get_stats` (lines 88-102). -/
def get_stats (c : Text2CypherCache K V) : CacheStats :=
  let total := c.hits + c.misses
  { size := c.cache.length
    max_size := c.max_size
    hits := c.hits
    misses := c.misses
    hit_rate := if 0 < total then (c.hits : ℚ) / (total : ℚ) else 0 }

end Text2CypherCache

/-- One cache call, at key level. -/
inductive CacheOp (K V : Type) where
  | get (k : K)
  | set (k : K) (v : V)

/-- Apply one call to the cache (the value returned by `get` is dropped). -/
def runOp {K V : Type} [DecidableEq K] (c : Text2CypherCache K V) :
    CacheOp K V → Text2CypherCache K V
  | .get k => (c.get k).2
  | .set k v => c.set k v

/-- Run a sequence of cache calls. -/
def runOps {K V : Type} [DecidableEq K] (c : Text2CypherCache K V)
    (ops : List (CacheOp K V)) : Text2CypherCache K V :=
  ops.foldl runOp c

/-! ## `Text2CypherCache._generate_key` (src/text2cypher_cache.py lines 27-40)

`json.dumps(schema, sort_keys=True)` sorts every object's fields by key
before serializing; the SHA-256 hexdigest 16-character prefix is an
arbitrary deterministic `digest16 : String → String`. -/

/-- A JSON value as produced by the schema provider: strings, arrays and
objects (an object is a field list in insertion order). -/
inductive Json where
  | str : String → Json
  | arr : List Json → Json
  | obj : List (String × Json) → Json

/-- JSON string rendering (the schema strings contain no characters that
`json.dumps` escapes, so escaping reduces to quoting `\` and `"`). -/
def jstr (s : String) : String :=
  "\"" ++ String.mk (s.toList.flatMap
    (fun c => if c = '\\' || c = '"' then ['\\', c] else [c])) ++ "\""

/-- Field order chosen by `sort_keys=True`: sort by key, stably. -/
def keyLe {α : Type} (a b : String × α) : Prop := a.1 ≤ b.1

instance {α : Type} : DecidableRel (keyLe (α := α)) :=
  fun a b => inferInstanceAs (Decidable (a.1 ≤ b.1))

/-- Stable sort of an object's rendered fields by key. -/
def sortPairs {α : Type} (l : List (String × α)) : List (String × α) :=
  List.insertionSort keyLe l

/-- A rendered object field, `json.dumps` separators `(', ', ': ')`. -/
def renderEntry (p : String × String) : String :=
  jstr p.1 ++ ": " ++ p.2

mutual
/-- `json.dumps(j, sort_keys=True)`. -/
def dumpsSorted : Json → String
  | .str s => jstr s
  | .arr l => "[" ++ String.intercalate ", " (dumpsArr l) ++ "]"
  | .obj l =>
    "\x7b" ++ String.intercalate ", " ((sortPairs (dumpsEntries l)).map renderEntry)
      ++ "\x7d"

/-- Serialize the elements of an array. -/
def dumpsArr : List Json → List String
  | [] => []
  | j :: t => dumpsSorted j :: dumpsArr t

/-- Serialize the values of an object's fields, keeping the keys. -/
def dumpsEntries : List (String × Json) → List (String × String)
  | [] => []
  | (k, v) :: t => (k, dumpsSorted v) :: dumpsEntries t
end

/-- `_generate_key` (lines 27-40): digest prefix of the question, `_`,
digest prefix of the canonically serialized schema. -/
def generate_key (digest16 : String → String) (question : String) (schema : Json) :
    String :=
  digest16 question ++ "_" ++ digest16 (dumpsSorted schema)

/-! ## `PerformanceTracker.get_timing_breakdown`
(src/performance_benchmark.py lines 75-101)

`current_run` is a dict from stage name to elapsed seconds (floats as
`ℚ`); the breakdown iterates the stages sorted by elapsed time
descending (Python's stable sort) and then assigns the synthetic
`_total` entry (a dict assignment: it overwrites in place if the key
exists, else appends). -/

/-- One value of the breakdown dict. -/
structure BreakdownEntry where
  time_seconds : ℚ
  time_ms : ℚ
  percentage : ℚ
  deriving DecidableEq

/-- Descending stable order by elapsed time (`sorted(..., key=lambda
x: x[1], reverse=True)`). -/
def elapsedGe (a b : String × ℚ) : Prop := b.2 ≤ a.2

instance : DecidableRel elapsedGe :=
  fun a b => inferInstanceAs (Decidable (b.2 ≤ a.2))

/-- Python dict assignment `d[k] = v` on an insertion-ordered list. -/
def dictAssign {β : Type} (l : List (String × β)) (k : String) (v : β) :
    List (String × β) :=
  if l.any (fun p => decide (p.1 = k)) then
    l.map (fun p => if p.1 = k then (k, v) else p)
  else l ++ [(k, v)]

/-- `get_timing_breakdown` (lines 75-101). -/
def get_timing_breakdown (run : List (String × ℚ)) : List (String × BreakdownEntry) :=
  if run.isEmpty then []
  else
    let total := (run.map Prod.snd).sum
    let entries :=
      (List.insertionSort elapsedGe run).map
        (fun p =>
          (p.1, { time_seconds := p.2
                  time_ms := p.2 * 1000
                  percentage := if 0 < total then p.2 / total * 100 else 0 :
                    BreakdownEntry }))
    dictAssign entries "_total"
      { time_seconds := total, time_ms := total * 1000, percentage := 100 }

/-- The per-stage percentage total: every entry of the breakdown except
the synthetic trailing `_total` one. -/
def perStagePercentageSum (b : List (String × BreakdownEntry)) : ℚ :=
  (b.dropLast.map (fun p => p.2.percentage)).sum

/-! ## Helper lemmas -/

theorem length_filter_lt_of_mem {α : Type} {p : α → Bool} {l : List α} {x : α}
    (hx : x ∈ l) (hpx : p x = false) : (l.filter p).length < l.length := by
  induction l with
  | nil => cases hx
  | cons a t ih =>
    rcases List.mem_cons.mp hx with h | h
    · subst h
      rw [List.filter_cons, hpx]
      exact Nat.lt_succ_of_le (List.length_filter_le p t)
    · rw [List.filter_cons]
      cases hpa : p a
      · exact Nat.lt_succ_of_lt (ih h)
      · simpa using Nat.succ_lt_succ (ih h)

theorem removeKey_length_lt {K V : Type} [DecidableEq K] {l : List (K × V)} {k : K}
    (h : Text2CypherCache.findVal l k ≠ none) :
    (Text2CypherCache.removeKey l k).length < l.length := by
  unfold Text2CypherCache.findVal at h
  cases hf : l.find? (fun p => decide (p.1 = k)) with
  | none => rw [hf] at h; simp at h
  | some pr =>
    have hmem := List.mem_of_find?_eq_some hf
    have hfp := List.find?_some hf
    have hpk : pr.1 = k := of_decide_eq_true hfp
    exact length_filter_lt_of_mem hmem (by simp [hpk])

theorem removeKey_eq_of_not_found {K V : Type} [DecidableEq K] {l : List (K × V)} {k : K}
    (h : Text2CypherCache.findVal l k = none) :
    Text2CypherCache.removeKey l k = l := by
  unfold Text2CypherCache.findVal at h
  cases hf : l.find? (fun p => decide (p.1 = k)) with
  | some p => rw [hf] at h; simp at h
  | none =>
    refine List.filter_eq_self.mpr (fun p hp => ?_)
    have := List.find?_eq_none.mp hf p hp
    simpa using this

theorem get_preserves_size {K V : Type} [DecidableEq K]
    (c : Text2CypherCache K V) (k : K) :
    ((c.get k).2).cache.length ≤ c.cache.length ∧ ((c.get k).2).max_size = c.max_size := by
  unfold Text2CypherCache.get
  cases h : Text2CypherCache.findVal c.cache k with
  | none => simp
  | some v =>
    have hlt := removeKey_length_lt (l := c.cache) (k := k) (by rw [h]; simp)
    constructor
    · simpa using hlt
    · rfl

theorem set_preserves_size {K V : Type} [DecidableEq K]
    (c : Text2CypherCache K V) (k : K) (v : V) (h : c.cache.length ≤ c.max_size) :
    ((c.set k v)).cache.length ≤ c.max_size ∧ (c.set k v).max_size = c.max_size := by
  unfold Text2CypherCache.set
  have hrk := List.length_filter_le (fun p => decide (¬p.1 = k)) c.cache
  constructor
  · by_cases hcap :
      c.max_size < (Text2CypherCache.removeKey c.cache k ++ [(k, v)]).length
    · simp only [hcap, if_true]
      simp only [List.length_drop, List.length_append, List.length_singleton]
      simp only [Text2CypherCache.removeKey] at hcap ⊢
      simp only [List.length_append, List.length_singleton] at hcap
      omega
    · simp only [hcap, if_false]
      simp only [Text2CypherCache.removeKey, List.length_append,
        List.length_singleton] at hcap ⊢
      omega
  · rfl

theorem runOp_preserves_size {K V : Type} [DecidableEq K]
    (c : Text2CypherCache K V) (op : CacheOp K V) (h : c.cache.length ≤ c.max_size) :
    (runOp c op).cache.length ≤ (runOp c op).max_size ∧
      (runOp c op).max_size = c.max_size := by
  cases op with
  | get k =>
    have hg := get_preserves_size c k
    exact ⟨by rw [runOp, hg.2]; exact le_trans hg.1 h, hg.2⟩
  | set k v =>
    have hs := set_preserves_size c k v h
    exact ⟨by rw [runOp, hs.2]; exact hs.1, hs.2⟩

theorem runOps_preserves_size {K V : Type} [DecidableEq K]
    (ops : List (CacheOp K V)) :
    ∀ c : Text2CypherCache K V, c.cache.length ≤ c.max_size →
      (runOps c ops).cache.length ≤ (runOps c ops).max_size := by
  induction ops with
  | nil => intro c h; simpa [runOps] using h
  | cons op rest ih =>
    intro c h
    have hstep := runOp_preserves_size c op h
    have : (runOp c op).cache.length ≤ (runOp c op).max_size := hstep.1
    simpa [runOps] using ih (runOp c op) this

theorem runOps_max_size {K V : Type} [DecidableEq K] (ops : List (CacheOp K V)) :
    ∀ c : Text2CypherCache K V, c.cache.length ≤ c.max_size →
      (runOps c ops).max_size = c.max_size := by
  induction ops with
  | nil => intro c _; rfl
  | cons op rest ih =>
    intro c h
    have hstep := runOp_preserves_size c op h
    have := ih (runOp c op) hstep.1
    simpa [runOps, hstep.2] using this

/-! ## Claim C1 -/

/-- C1: For every sequence of cache calls on a cache constructed with
capacity `max_size`, the number of stored entries never exceeds
`max_size`; when an insertion of a new key makes the size exceed
capacity, exactly one entry — the least-recently-used (the head of the
recency list) — is evicted; and, since both `get` on a present key and
`set` promote the key to most-recently-used, the sequence
`set A; set B; get A; set C` on a capacity-2 cache leaves exactly `A`
and `C` present (`B` evicted). -/
theorem cache_capacity_lru_invariant :
    (∀ (K V : Type) (inst : DecidableEq K) (m : Nat) (ops : List (CacheOp K V)),
      (@runOps K V inst (Text2CypherCache.init K V m) ops).cache.length ≤ m) ∧
    (∀ (K V : Type) (inst : DecidableEq K) (c : Text2CypherCache K V) (k : K) (v : V),
      @Text2CypherCache.findVal K V inst c.cache k = none →
      c.cache.length = c.max_size → c.cache ≠ [] →
      (@Text2CypherCache.set K V inst c k v).cache = c.cache.tail ++ [(k, v)]) ∧
    ((runOps (Text2CypherCache.init String Nat 2)
        [CacheOp.set "A" 1, CacheOp.set "B" 2, CacheOp.get "A",
         CacheOp.set "C" 3]).cache.map Prod.fst = ["A", "C"]) := by
  refine ⟨?_, ?_, by decide⟩
  · intro K V inst m ops
    have h0 : (Text2CypherCache.init K V m).cache.length ≤
        (Text2CypherCache.init K V m).max_size := by
      simp [Text2CypherCache.init]
    have h1 := runOps_preserves_size ops (Text2CypherCache.init K V m) h0
    have h2 := runOps_max_size ops (Text2CypherCache.init K V m) h0
    rw [h2] at h1
    exact h1
  · intro K V inst c k v hnone hfull hne
    unfold Text2CypherCache.set
    have hrk : Text2CypherCache.removeKey c.cache k = c.cache :=
      removeKey_eq_of_not_found hnone
    rw [hrk]
    have hcap : c.max_size < (c.cache ++ [(k, v)]).length := by
      simp [hfull.symm]
    simp only [hcap, if_true]
    cases hc : c.cache with
    | nil => exact absurd hc hne
    | cons a t => simp

/-- Witness for C1: the capacity bound applied to a concrete run, and the
eviction equation applied to a concrete full cache with a fresh key. -/
theorem cache_capacity_lru_invariant_witness :
    ((runOps (Text2CypherCache.init Nat Nat 2)
        [CacheOp.set 1 10, CacheOp.set 2 20, CacheOp.set 3 30]).cache.length ≤ 2) ∧
    ((⟨2, [(5, 50), (6, 60)], 0, 0⟩ : Text2CypherCache Nat Nat).set 7 70).cache
      = [(6, 60), (7, 70)] := by
  constructor
  · exact cache_capacity_lru_invariant.1 Nat Nat inferInstance 2 _
  · have h := cache_capacity_lru_invariant.2.1 Nat Nat inferInstance
      (⟨2, [(5, 50), (6, 60)], 0, 0⟩ : Text2CypherCache Nat Nat) 7 70
      (by decide) (by decide) (by decide)
    rw [h]
    rfl

/-! ## Claim C7 -/

/-- C7: In the statistics returned by `get_stats`, `hit_rate` is `0` when
no `get` request has occurred (`hits = misses = 0`) and
`hits / (hits + misses)` otherwise; `get_stats` is a total function, so
no division-by-zero error is possible. -/
theorem get_stats_hit_rate :
    ∀ (K V : Type) (c : Text2CypherCache K V),
      (c.hits + c.misses = 0 → (Text2CypherCache.get_stats c).hit_rate = 0) ∧
      (0 < c.hits + c.misses →
        (Text2CypherCache.get_stats c).hit_rate =
          (c.hits : ℚ) / ((c.hits : ℚ) + (c.misses : ℚ))) := by
  intro K V c
  constructor
  · intro h
    simp [Text2CypherCache.get_stats, h]
  · intro h
    have : (0 : ℚ) < ((c.hits + c.misses : Nat) : ℚ) := by exact_mod_cast h
    simp only [Text2CypherCache.get_stats, h, if_true]
    push_cast
    ring_nf

/-- Witness for C7: a cache with 3 hits and 1 miss has hit rate
`3 / (3 + 1) = 0.75`. -/
theorem get_stats_hit_rate_witness :
    (Text2CypherCache.get_stats
        (⟨100, [], 3, 1⟩ : Text2CypherCache Unit Unit)).hit_rate = 3 / 4 := by
  have h := (get_stats_hit_rate Unit Unit ⟨100, [], 3, 1⟩).2 (by norm_num)
  rw [h]
  norm_num

/-! ## Claim C5 -/

theorem sortPairs_eq_of_perm {α : Type} {l₁ l₂ : List (String × α)}
    (hperm : l₁.Perm l₂) (hnd : (l₁.map Prod.fst).Nodup) :
    sortPairs l₁ = sortPairs l₂ := by
  haveI : IsTotal (String × α) keyLe := ⟨fun a b => le_total a.1 b.1⟩
  haveI : IsTrans (String × α) keyLe := ⟨fun _ _ _ hab hbc => le_trans hab hbc⟩
  haveI : IsAntisymm (String × α) (fun a b : String × α => a.1 < b.1) :=
    ⟨fun _ _ h1 h2 => absurd h2 (lt_asymm h1)⟩
  have hp : (sortPairs l₁).Perm (sortPairs l₂) :=
    (List.perm_insertionSort keyLe l₁).trans
      (hperm.trans (List.perm_insertionSort keyLe l₂).symm)
  have hnd₂ : (l₂.map Prod.fst).Nodup :=
    ((hperm.map Prod.fst).nodup_iff).mp hnd
  have hkey : ∀ (l : List (String × α)), (l.map Prod.fst).Nodup →
      (sortPairs l).Pairwise (fun a b : String × α => a.1 < b.1) := by
    intro l hl
    have hs : (sortPairs l).Pairwise keyLe := List.sorted_insertionSort keyLe l
    have hn : ((sortPairs l).map Prod.fst).Nodup :=
      (((List.perm_insertionSort keyLe l).map Prod.fst).nodup_iff).mpr hl
    have hne : (sortPairs l).Pairwise (fun a b : String × α => a.1 ≠ b.1) :=
      (List.pairwise_map).mp hn
    exact (hs.and hne).imp (fun h => lt_of_le_of_ne h.1 h.2)
  exact List.eq_of_perm_of_sorted hp (hkey l₁ hnd) (hkey l₂ hnd₂)

theorem dumpsEntries_eq_map (l : List (String × Json)) :
    dumpsEntries l = l.map (fun p => (p.1, dumpsSorted p.2)) := by
  induction l with
  | nil => simp [dumpsEntries]
  | cons p t ih => cases p; simp [dumpsEntries, ih]

/-- C5: Cache key derivation is deterministic (a pure function) and
schema-field-order independent: for every digest function, question and
pair of schema objects holding the same fields (a permutation, with no
duplicate keys), `_generate_key` produces the same key, because the
schema is serialized with keys sorted before hashing. -/
theorem generate_key_schema_order_independent
    (digest16 : String → String) (question : String)
    (l₁ l₂ : List (String × Json))
    (hperm : l₁.Perm l₂) (hnd : (l₁.map Prod.fst).Nodup) :
    generate_key digest16 question (Json.obj l₁) =
      generate_key digest16 question (Json.obj l₂) := by
  have hsort : sortPairs (dumpsEntries l₁) = sortPairs (dumpsEntries l₂) := by
    apply sortPairs_eq_of_perm
    · rw [dumpsEntries_eq_map, dumpsEntries_eq_map]
      exact hperm.map _
    · rw [dumpsEntries_eq_map]
      simpa [List.map_map] using hnd
  have hdump : dumpsSorted (Json.obj l₁) = dumpsSorted (Json.obj l₂) := by
    simp only [dumpsSorted]
    rw [hsort]
  unfold generate_key
  rw [hdump]

/-- Witness for C5: two serializations of the same two-field schema with
the fields in opposite orders produce the same key. -/
theorem generate_key_schema_order_independent_witness :
    ([("b", Json.str "2"), ("a", Json.str "1")].Perm
        [("a", Json.str "1"), ("b", Json.str "2")]) ∧
    (([("b", Json.str "2"), ("a", Json.str "1")].map Prod.fst).Nodup) ∧
    generate_key id "q" (Json.obj [("b", Json.str "2"), ("a", Json.str "1")]) =
      generate_key id "q" (Json.obj [("a", Json.str "1"), ("b", Json.str "2")]) := by
  have hperm : [("b", Json.str "2"), ("a", Json.str "1")].Perm
      [("a", Json.str "1"), ("b", Json.str "2")] :=
    List.Perm.swap ("a", Json.str "1") ("b", Json.str "2") []
  exact ⟨hperm, by decide,
    generate_key_schema_order_independent id "q" _ _ hperm (by decide)⟩

/-! ## Claim C9 -/

theorem sum_map_div_mul_hundred (l : List (String × ℚ)) (T : ℚ) :
    (l.map (fun p => p.2 / T * 100)).sum = (l.map Prod.snd).sum / T * 100 := by
  induction l with
  | nil => simp
  | cons p t ih => simp [ih, add_div, add_mul]

/-- C9 counterexample: the claim fails as stated on the non-empty
current-run map with one stage of elapsed time `0`: the total is `0`, so
the guarded percentage is `0` for the stage and the per-stage
percentages sum to `0`, not `100`. -/
theorem timing_breakdown_zero_counterexample :
    ([("a", (0 : ℚ))] ≠ ([] : List (String × ℚ))) ∧
    perStagePercentageSum (get_timing_breakdown [("a", (0 : ℚ))]) ≠ 100 := by
  constructor
  · simp
  · have ha : ((("a" : String) = "_total")) = False := eq_false (by decide)
    have h : perStagePercentageSum (get_timing_breakdown [("a", (0 : ℚ))]) = 0 := by
      norm_num [perStagePercentageSum, get_timing_breakdown, dictAssign,
        List.insertionSort, List.orderedInsert, ha]
    rw [h]
    norm_num

/-- C9 (amended): for every non-empty current-run map (with stage names
not clashing with the synthetic `_total` name) whose elapsed values have
a positive sum, the per-stage percentage values of
`get_timing_breakdown` sum to `100` (each percentage being that stage's
elapsed over the total, times 100); the trailing synthetic `_total`
entry always reports exactly the sum of the per-stage elapsed values;
and the breakdown of an empty current run is empty. When the total is
`0` (the case refuted above) each guarded percentage is `0` instead. -/
theorem timing_breakdown_percentages (run : List (String × ℚ))
    (hne : run ≠ []) (hname : ¬"_total" ∈ run.map Prod.fst) :
    (0 < (run.map Prod.snd).sum →
      perStagePercentageSum (get_timing_breakdown run) = 100) ∧
    (get_timing_breakdown run).getLast? =
      some ("_total",
        { time_seconds := (run.map Prod.snd).sum
          time_ms := (run.map Prod.snd).sum * 1000
          percentage := 100 }) ∧
    (∀ r : List (String × ℚ), r = [] → get_timing_breakdown r = []) := by
  have hEmpty : run.isEmpty = false := by
    cases run with
    | nil => exact absurd rfl hne
    | cons a t => rfl
  have hkeysPerm : ((List.insertionSort elapsedGe run).map Prod.fst).Perm
      (run.map Prod.fst) := (List.perm_insertionSort elapsedGe run).map Prod.fst
  have hmemSorted : ¬"_total" ∈ (List.insertionSort elapsedGe run).map Prod.fst :=
    fun hmem => hname (hkeysPerm.mem_iff.mp hmem)
  set total := (run.map Prod.snd).sum with htotal
  set entries :=
    (List.insertionSort elapsedGe run).map
      (fun p =>
        (p.1, { time_seconds := p.2
                time_ms := p.2 * 1000
                percentage := if 0 < total then p.2 / total * 100 else 0 :
                  BreakdownEntry })) with hentries
  have hany : entries.any (fun p => decide (p.1 = "_total")) = false := by
    rw [Bool.eq_false_iff]
    intro hx
    rcases List.any_eq_true.mp hx with ⟨x, hxmem, hxeq⟩
    have hx1 : x.1 = "_total" := of_decide_eq_true hxeq
    exact hmemSorted (by
      rw [hentries] at hxmem
      rcases List.mem_map.mp hxmem with ⟨y, hy, hyx⟩
      have : x.1 = y.1 := by rw [← hyx]
      rw [← hx1, this]
      exact List.mem_map_of_mem Prod.fst hy)
  have hbd : get_timing_breakdown run =
      entries ++ [("_total",
        { time_seconds := total, time_ms := total * 1000, percentage := 100 })] := by
    simp only [get_timing_breakdown, hEmpty, Bool.false_eq_true, if_false,
      dictAssign, hany]
  refine ⟨?_, ?_, ?_⟩
  · intro hpos
    rw [hbd]
    unfold perStagePercentageSum
    rw [List.dropLast_concat, hentries]
    rw [List.map_map]
    have hmapped :
        ((fun p : String × BreakdownEntry => p.2.percentage) ∘
          (fun p : String × ℚ =>
            (p.1, { time_seconds := p.2
                    time_ms := p.2 * 1000
                    percentage := if 0 < total then p.2 / total * 100 else 0 :
                      BreakdownEntry }))) =
          fun p : String × ℚ => p.2 / total * 100 := by
      funext p
      simp [hpos]
    rw [hmapped, sum_map_div_mul_hundred]
    have hsum : ((List.insertionSort elapsedGe run).map Prod.snd).sum = total :=
      ((List.perm_insertionSort elapsedGe run).map Prod.snd).sum_eq
    rw [hsum, div_self (ne_of_gt hpos), one_mul]
  · rw [hbd]
    exact List.getLast?_concat _
  · intro r hr
    rw [hr]
    rfl

/-- Witness for C9 (amended): stages of 1s, 2s and 1s give percentages
summing to 100 and a `_total` of 4 seconds. -/
theorem timing_breakdown_percentages_witness :
    ([("a", (1 : ℚ)), ("b", 2), ("c", 1)] ≠ ([] : List (String × ℚ))) ∧
    (¬"_total" ∈ [("a", (1 : ℚ)), ("b", 2), ("c", 1)].map Prod.fst) ∧
    (0 < ([("a", (1 : ℚ)), ("b", 2), ("c", 1)].map Prod.snd).sum) ∧
    perStagePercentageSum
      (get_timing_breakdown [("a", (1 : ℚ)), ("b", 2), ("c", 1)]) = 100 ∧
    (get_timing_breakdown [("a", (1 : ℚ)), ("b", 2), ("c", 1)]).getLast? =
      some ("_total",
        { time_seconds := ([("a", (1 : ℚ)), ("b", 2), ("c", 1)].map Prod.snd).sum
          time_ms := ([("a", (1 : ℚ)), ("b", 2), ("c", 1)].map Prod.snd).sum * 1000
          percentage := 100 }) := by
  have hne : [("a", (1 : ℚ)), ("b", 2), ("c", 1)] ≠ ([] : List (String × ℚ)) := by simp
  have hname : ¬"_total" ∈ [("a", (1 : ℚ)), ("b", 2), ("c", 1)].map Prod.fst := by
    simp
  have hpos : 0 < ([("a", (1 : ℚ)), ("b", 2), ("c", 1)].map Prod.snd).sum := by
    norm_num
  have h := timing_breakdown_percentages [("a", (1 : ℚ)), ("b", 2), ("c", 1)] hne hname
  exact ⟨hne, hname, hpos, h.1 hpos, h.2.1⟩

/-! ## Claim C6 -/

/-- C6: `validate_syntax` performs exactly one external backend call per
invocation (the call log grows by exactly the single query
`EXPLAIN {query}`), catches every failure of that dry-run call and
returns `(false, errorMessage)`, and returns `(true, none)` on success;
in both cases it returns rather than propagating the backend exception. -/
theorem validate_syntax_one_call_catches
    (f : String → Except String Unit) (q : String) (log : List String) :
    ( validate_syntax (withCallLog f) q log).2 = log ++ ["EXPLAIN " ++ q] ∧
    (∀ e, f ("EXPLAIN " ++ q) = .error e →
      ( validate_syntax (withCallLog f) q log).1 = (false, some e)) ∧
    (∀ u : Unit, f ("EXPLAIN " ++ q) = .ok u →
      ( validate_syntax (withCallLog f) q log).1 = (true, none)) := by
  unfold validate_syntax withCallLog
  cases hf : f ("EXPLAIN " ++ q) with
  | ok u =>
    refine ⟨rfl, ?_, ?_⟩
    · intro e he
      exact Except.noConfusion he
    · intro u2 _
      rfl
  | error e =>
    refine ⟨rfl, ?_, ?_⟩
    · intro e2 he
      injection he with h
      rw [h]
    · intro u hu
      exact Except.noConfusion hu

/-- Witness for C6: a backend that rejects everything produces exactly
one logged call `EXPLAIN MATCH (n) RETURN n.x` and the outcome
`(false, some "syntax error")`. -/
theorem validate_syntax_one_call_catches_witness :
    ( validate_syntax (withCallLog (fun _ => .error "syntax error"))
        "MATCH (n) RETURN n.x" []).2 = ["EXPLAIN MATCH (n) RETURN n.x"] ∧
    ( validate_syntax (withCallLog (fun _ => .error "syntax error"))
        "MATCH (n) RETURN n.x" []).1 = (false, some "syntax error") := by
  have h := validate_syntax_one_call_catches
    (fun _ => .error "syntax error") "MATCH (n) RETURN n.x" []
  exact ⟨h.1, h.2.1 "syntax error" rfl⟩

/-! ## Claim C8 -/

/-- C8: `post_process "WHERE a.name = 'Einstein'"` rewrites the equality
comparison to the case-folded containment form: the result is exactly
`WHERE lower(a.name) CONTAINS 'Einstein'` — only the property accessor
is wrapped in `lower(...)`; the literal text `Einstein` is preserved
unchanged (not lowered). -/
theorem post_process_einstein_example :
    post_process "WHERE a.name = 'Einstein'" =
      .ok "WHERE lower(a.name) CONTAINS 'Einstein'" := by
  decide

/-! ## Claim C10 -/

/-- C10: the built-in heuristic repairer is the identity whenever the
error message does not mention `semicolon` (case-insensitively) and the
query does not mention `apoc` (case-insensitively) — so `refine` without
a caller-supplied repair function re-validates the identical candidate
on every later attempt for such errors. -/
theorem apply_heuristic_repairs_identity (q e : String)
    (he : subIn "semicolon".toList (e.toList.map Char.toLower) = false)
    (hq : subIn "apoc".toList (q.toList.map Char.toLower) = false) :
    apply_heuristic_repairs q e = q := by
  unfold apply_heuristic_repairs
  rw [he]
  simp only [Bool.false_eq_true, if_false]
  rw [hq]
  simp

/-- Witness for C10: a representative binder error and an APOC-free
query are left unchanged by the heuristic repairer. -/
theorem apply_heuristic_repairs_identity_witness :
    (subIn "semicolon".toList
      (("Binder exception: Variable x is not in scope.").toList.map Char.toLower)
        = false) ∧
    (subIn "apoc".toList (("MATCH (n) RETURN n.name").toList.map Char.toLower)
        = false) ∧
    apply_heuristic_repairs "MATCH (n) RETURN n.name"
      "Binder exception: Variable x is not in scope." = "MATCH (n) RETURN n.name" := by
  refine ⟨by decide, by decide, ?_⟩
  exact apply_heuristic_repairs_identity _ _ (by decide) (by decide)

/-! ## Claim C2 -/

/-- C2 is false on the code: `post_process` is not idempotent. On
`a.b = 'x' AND a.b = 'x'`, the first application rewrites only the first
comparison (the 20-character `lower` guard window for the second match
is sliced from the already-mutated result at the stale match offset, so
the second comparison is skipped), and the second application then
rewrites the remaining comparison, producing a different string. -/
theorem post_process_not_idempotent :
    post_process "a.b = 'x' AND a.b = 'x'" =
      .ok "lower(a.b) CONTAINS 'x' AND a.b = 'x'" ∧
    post_process "lower(a.b) CONTAINS 'x' AND a.b = 'x'" =
      .ok "lower(a.b) CONTAINS 'x' AND lower(a.b) CONTAINS 'x'" ∧
    ("lower(a.b) CONTAINS 'x' AND a.b = 'x'" : String) ≠
      "lower(a.b) CONTAINS 'x' AND lower(a.b) CONTAINS 'x'" :=
  ⟨by decide, by decide, by decide⟩

/-! ## Claim C4 -/

/-- C4 is false on the code: `refine` can propagate an exception. On the
query `RETURN ,x` the `RETURN` clause contains an empty comma-separated
item, `item.split()[0]` in `_fix_return_projection` raises `IndexError`
inside `post_process`, and `refine` propagates it instead of returning a
triple (the backend is never even consulted). -/
theorem refine_propagates_indexerror :
    refine (fun _ (s : Unit) => (Except.error "any backend error", s)) none 3
      "RETURN ,x" () = .error "IndexError: list index out of range" := by
  decide

/-! ## Claim C3 -/

theorem iterRefine_zero {σ : Type} (execQ : String → σ → Except String Unit × σ)
    (repair : String → Option String → String) (cs : String × σ) :
    iterRefine execQ repair cs 0 = cs := rfl

theorem iterRefine_succ {σ : Type} (execQ : String → σ → Except String Unit × σ)
    (repair : String → Option String → String) (cs : String × σ) (n : Nat) :
    iterRefine execQ repair cs (n + 1) =
      iterRefine execQ repair (stepRefine execQ repair cs) n := rfl

theorem refineHistory_length {σ : Type} (execQ : String → σ → Except String Unit × σ)
    (repair : String → Option String → String) (cs : String × σ)
    (attempt n : Nat) :
    (refineHistory execQ repair cs attempt n).length = n := by
  simp [refineHistory]

theorem refineHistory_succ_front {σ : Type}
    (execQ : String → σ → Except String Unit × σ)
    (repair : String → Option String → String) (cs : String × σ)
    (attempt k : Nat) :
    refineHistory execQ repair cs attempt (k + 1) =
      ("Attempt " ++ toString (attempt + 1) ++ ": " ++ pyStrOfOpt (errAt execQ repair cs 0))
        :: refineHistory execQ repair (stepRefine execQ repair cs) (attempt + 1) k := by
  unfold refineHistory
  rw [List.range_succ_eq_map, List.map_cons, List.map_map]
  congr 1
  apply List.map_congr_left
  intro i _
  have harith : attempt + (i + 1) + 1 = attempt + 1 + i + 1 := by omega
  simp only [Function.comp_apply]
  rw [harith]
  rfl

theorem refineLoop_all_invalid {σ : Type} (execQ : String → σ → Except String Unit × σ)
    (repair : String → Option String → String) :
    ∀ fuel : Nat, 0 < fuel →
    ∀ (cs : String × σ) (attempt : Nat) (hist : List String) (po : Option String),
    (∀ i, i < fuel → post_process (iterRefine execQ repair cs i).1 =
        .ok (procAt execQ repair cs i)) →
    (∀ i, i < fuel →
      ( validate_syntax execQ (procAt execQ repair cs i)
          (iterRefine execQ repair cs i).2).1.1 = false) →
    refineLoop execQ (some repair) fuel attempt cs.1 po hist cs.2 =
      .ok ((procAt execQ repair cs (fuel - 1), false,
            hist ++ refineHistory execQ repair cs attempt fuel),
           (iterRefine execQ repair cs fuel).2) := by
  intro fuel
  induction fuel with
  | zero => intro h0; exact absurd h0 (lt_irrefl 0)
  | succ k ih =>
    intro _ cs attempt hist po hpost hfail
    have h0 : post_process cs.1 = .ok (procAt execQ repair cs 0) :=
      hpost 0 (Nat.succ_pos k)
    have hv0 : ( validate_syntax execQ (procAt execQ repair cs 0) cs.2).1.1 = false :=
      hfail 0 (Nat.succ_pos k)
    have hstep : stepRefine execQ repair cs =
        (repair cs.1 ( validate_syntax execQ (procAt execQ repair cs 0) cs.2).1.2,
         ( validate_syntax execQ (procAt execQ repair cs 0) cs.2).2) := by
      unfold stepRefine
      rw [h0]
    have herr0 : errAt execQ repair cs 0 =
        ( validate_syntax execQ (procAt execQ repair cs 0) cs.2).1.2 := rfl
    simp only [refineLoop, h0, hv0, Bool.false_eq_true, if_false]
    cases k with
    | zero =>
      simp only [refineLoop]
      rw [refineHistory_succ_front execQ repair cs attempt 0]
      rw [herr0]
      simp only [refineHistory, List.range_zero, List.map_nil]
      have hiter : (iterRefine execQ repair cs 1).2 =
          ( validate_syntax execQ (procAt execQ repair cs 0) cs.2).2 := by
        show (stepRefine execQ repair cs).2 = _
        rw [hstep]
      rw [hiter]
    | succ j =>
      have hs1 : (stepRefine execQ repair cs).1 =
          repair cs.1 ( validate_syntax execQ (procAt execQ repair cs 0) cs.2).1.2 := by
        rw [hstep]
      have hs2 : (stepRefine execQ repair cs).2 =
          ( validate_syntax execQ (procAt execQ repair cs 0) cs.2).2 := by
        rw [hstep]
      rw [← hs1, ← hs2]
      have hrec := ih (Nat.succ_pos j) (stepRefine execQ repair cs) (attempt + 1)
        (hist ++ ["Attempt " ++ toString (attempt + 1) ++ ": "
                    ++ pyStrOfOpt ( validate_syntax execQ
                        (procAt execQ repair cs 0) cs.2).1.2])
        (some (procAt execQ repair cs 0))
        (fun i _ => hpost (i + 1) (by omega))
        (fun i _ => hfail (i + 1) (by omega))
      rw [hrec]
      rw [refineHistory_succ_front execQ repair cs attempt (j + 1)]
      rw [herr0]
      simp only [Nat.add_sub_cancel, List.append_assoc, List.singleton_append,
        List.cons_append, List.nil_append]
      have hp : procAt execQ repair (stepRefine execQ repair cs) j =
          procAt execQ repair cs (j + 1) := by
        unfold procAt
        rw [iterRefine_succ]
      have hi : iterRefine execQ repair (stepRefine execQ repair cs) (j + 1) =
          iterRefine execQ repair cs (j + 1 + 1) :=
        (iterRefine_succ execQ repair cs (j + 1)).symm
      rw [hp, hi]

/-- C3 counterexample: the claim fails as stated. With a backend that
fails on every query (so validation fails on every attempt), a repair
function (the identity) and the default `maxAttempts = 3`, the initial
query `RETURN ,` makes `post_process` raise `IndexError` in the first
iteration, and `refine` propagates the exception instead of returning a
triple with a false validity flag and three history entries. -/
theorem refine_exhaustion_counterexample :
    refine (fun _ (s : Unit) => (Except.error "bad", s)) (some (fun q _ => q)) 3
        "RETURN ," () = .error "IndexError: list index out of range" ∧
    (refine (fun _ (s : Unit) => (Except.error "bad", s)) (some (fun q _ => q)) 3
        "RETURN ," ()).toOption = none := by
  exact ⟨by decide, by decide⟩

/-- C3 (amended): provided `maxAttempts ≥ 1` and post-processing
succeeds (raises no exception) on every candidate of the run, if
validation fails on every attempt then `refine` performs exactly
`maxAttempts` iterations and returns a triple whose validity flag is
`false`, whose error history has length exactly `maxAttempts`, and whose
returned query is the last normalized candidate: the post-processed form
of the candidate validated in the final iteration (not the raw
pre-normalization candidate produced by the final repair call). -/
theorem refine_exhausts_attempts {σ : Type}
    (execQ : String → σ → Except String Unit × σ)
    (repair : String → Option String → String)
    (max_attempts : Nat) (query : String) (s0 : σ)
    (hA : 0 < max_attempts)
    (hpost : ∀ i, i < max_attempts →
      post_process (iterRefine execQ repair (query, s0) i).1 =
        .ok (procAt execQ repair (query, s0) i))
    (hfail : ∀ i, i < max_attempts →
      ( validate_syntax execQ (procAt execQ repair (query, s0) i)
          (iterRefine execQ repair (query, s0) i).2).1.1 = false) :
    refine execQ (some repair) max_attempts query s0 =
      .ok ((procAt execQ repair (query, s0) (max_attempts - 1), false,
            refineHistory execQ repair (query, s0) 0 max_attempts),
           (iterRefine execQ repair (query, s0) max_attempts).2) ∧
    (refineHistory execQ repair (query, s0) 0 max_attempts).length = max_attempts ∧
    post_process (iterRefine execQ repair (query, s0) (max_attempts - 1)).1 =
      .ok (procAt execQ repair (query, s0) (max_attempts - 1)) := by
  refine ⟨?_, refineHistory_length execQ repair (query, s0) 0 max_attempts,
    hpost (max_attempts - 1) (by omega)⟩
  have h := refineLoop_all_invalid execQ repair max_attempts hA (query, s0) 0 [] none
    hpost hfail
  unfold refine
  simpa using h

/-- Witness for C3 (amended): an always-failing backend, the identity
repair function and `maxAttempts = 2` give exactly the two-entry error
history, a false flag and the normalized final candidate. -/
theorem refine_exhausts_attempts_witness :
    (∀ i, i < 2 →
      post_process
          (iterRefine (fun _ (s : Unit) => (Except.error "bad", s)) (fun q _ => q)
            ("MATCH (a) RETURN a.x", ()) i).1 =
        .ok (procAt (fun _ (s : Unit) => (Except.error "bad", s)) (fun q _ => q)
          ("MATCH (a) RETURN a.x", ()) i)) ∧
    refine (fun _ (s : Unit) => (Except.error "bad", s)) (some (fun q _ => q)) 2
        "MATCH (a) RETURN a.x" () =
      .ok (("MATCH (a) RETURN a.x", false, ["Attempt 1: bad", "Attempt 2: bad"]), ()) := by
  refine ⟨by decide, ?_⟩
  have h := refine_exhausts_attempts (fun _ (s : Unit) => (Except.error "bad", s))
    (fun q _ => q) 2 "MATCH (a) RETURN a.x" () (by omega) (by decide) (by decide)
  rw [h.1]
  decide
